import Mathlib

/-!
Verification development for the page-scraper pipeline (src/index.js).

The JavaScript source is shallowly embedded: strings are lists of
characters (`JStr`), the DOM/cheerio queries made by `processWebPost` are
modelled as pre-queried data (`PostEl`, `Markup`), network/filesystem
outcomes are oracles (`MediaOutcome`, `SendEnv`), and the side effects the
code performs are collected in an explicit effect trace.  Machine behaviour
of the JavaScript builtins used by the source (`decodeURIComponent`,
`URL#searchParams`, `String.prototype.split`, `parseInt`, truthiness) is
reproduced by the helper functions in the first section.
-/

set_option autoImplicit false

namespace PageScraper

/-- JavaScript strings, modelled as lists of characters. -/
abbrev JStr := List Char

/-- Convert a Lean string literal to the `JStr` model. -/
def jstr (s : String) : JStr := s.toList

/-- Split a string at the first occurrence of `c`; `none` if `c` is absent. -/
def splitFirst (c : Char) : JStr → Option (JStr × JStr)
  | [] => none
  | a :: t => if a = c then some ([], t) else (splitFirst c t).map (fun p => (a :: p.1, p.2))

/-- Split on every occurrence of `c`, as `String.prototype.split` does. -/
def splitOnChar (c : Char) : JStr → List JStr
  | [] => [[]]
  | a :: t =>
    match splitOnChar c t with
    | [] => [[]]
    | h :: r => if a = c then [] :: h :: r else (a :: h) :: r

/-- Numeric value of one hex digit, upper or lower case. -/
def hexVal (c : Char) : Option Nat :=
  if '0' ≤ c ∧ c ≤ '9' then some (c.toNat - 48)
  else if 'a' ≤ c ∧ c ≤ 'f' then some (c.toNat - 87)
  else if 'A' ≤ c ∧ c ≤ 'F' then some (c.toNat - 55)
  else none

/-- Read one percent-escaped byte `%XY` from the head of the string. -/
def readByte : JStr → Option (Nat × JStr)
  | c :: h1 :: h2 :: rest =>
    if c = '%' then
      match hexVal h1, hexVal h2 with
      | some a, some b => some (a * 16 + b, rest)
      | _, _ => none
    else none
  | _ => none

/-- Read `n` percent-escaped UTF-8 continuation bytes. -/
def contBytes : Nat → JStr → Option (List Nat × JStr)
  | 0, s => some ([], s)
  | n + 1, s =>
    match readByte s with
    | some (b, s1) =>
      if 128 ≤ b ∧ b < 192 then (contBytes n s1).map (fun p => (b :: p.1, p.2))
      else none
    | none => none

/-- Decode one UTF-8 code point whose lead byte `b` was already read;
rejects overlong forms, surrogates and out-of-range values, as
`decodeURIComponent` does. -/
def decodeCP (b : Nat) (s : JStr) : Option (Nat × JStr) :=
  if b < 128 then some (b, s)
  else if b < 194 then none
  else if b < 224 then
    match contBytes 1 s with
    | some ([c1], s1) => some ((b - 192) * 64 + (c1 - 128), s1)
    | _ => none
  else if b < 240 then
    match contBytes 2 s with
    | some ([c1, c2], s1) =>
      let cp := (b - 224) * 4096 + (c1 - 128) * 64 + (c2 - 128)
      if 2048 ≤ cp ∧ ¬ (55296 ≤ cp ∧ cp ≤ 57343) then some (cp, s1) else none
    | _ => none
  else if b < 245 then
    match contBytes 3 s with
    | some ([c1, c2, c3], s1) =>
      let cp := (b - 240) * 262144 + (c1 - 128) * 4096 + (c2 - 128) * 64 + (c3 - 128)
      if 65536 ≤ cp ∧ cp ≤ 1114111 then some (cp, s1) else none
    | _ => none
  else none

/-- Fuel-indexed body of `strictDecode`; each step consumes at least one
character, so fuel `length + 1` always suffices. -/
def strictDecodeF : Nat → JStr → Option JStr
  | 0, _ => none
  | _ + 1, [] => some []
  | fuel + 1, c :: rest =>
    if c = '%' then
      match readByte (c :: rest) with
      | none => none
      | some (b, s1) =>
        match decodeCP b s1 with
        | none => none
        | some (cp, s2) => (strictDecodeF fuel s2).map (fun t => Char.ofNat cp :: t)
    else (strictDecodeF fuel rest).map (fun t => c :: t)

/-- Model of `decodeURIComponent`: `none` models a thrown `URIError`. -/
def strictDecode (s : JStr) : Option JStr := strictDecodeF (s.length + 1) s

/-- Fuel-indexed body of `formDecode`. -/
def formDecodeF : Nat → JStr → JStr
  | 0, _ => []
  | _ + 1, [] => []
  | fuel + 1, c :: rest =>
    if c = '+' then ' ' :: formDecodeF fuel rest
    else if c = '%' then
      match readByte (c :: rest) with
      | none => c :: formDecodeF fuel rest
      | some (b, s1) =>
        match decodeCP b s1 with
        | none => Char.ofNat 65533 :: formDecodeF fuel s1
        | some (cp, s2) => Char.ofNat cp :: formDecodeF fuel s2
    else c :: formDecodeF fuel rest

/-- Model of `application/x-www-form-urlencoded` decoding as performed by
`URLSearchParams`: never throws, `+` becomes a space, malformed escapes are
kept or replaced. -/
def formDecode (s : JStr) : JStr := formDecodeF (s.length + 1) s

/-- Characters `encodeURIComponent` leaves unescaped. -/
def isUnreservedEnc (c : Char) : Bool :=
  c.isAlphanum || c = '-' || c = '_' || c = '.' || c = '!' || c = '~' ||
    c = '*' || c.toNat = 39 || c = '(' || c = ')'

/-- UTF-8 bytes of a code point. -/
def utf8Bytes (n : Nat) : List Nat :=
  if n < 128 then [n]
  else if n < 2048 then [192 + n / 64, 128 + n % 64]
  else if n < 65536 then [224 + n / 4096, 128 + (n / 64) % 64, 128 + n % 64]
  else [240 + n / 262144, 128 + (n / 4096) % 64, 128 + (n / 64) % 64, 128 + n % 64]

/-- Upper-case hex digit. -/
def hexChar (k : Nat) : Char := if k < 10 then Char.ofNat (48 + k) else Char.ofNat (55 + k)

/-- Percent-escape one byte. -/
def escByte (b : Nat) : JStr := ['%', hexChar (b / 16), hexChar (b % 16)]

/-- One character of `encodeURIComponent` output. -/
def encChar (c : Char) : JStr :=
  if isUnreservedEnc c then [c] else ((utf8Bytes c.toNat).map escByte).flatten

/-- Model of `encodeURIComponent`. -/
def encodeURIComponent (s : JStr) : JStr := (s.map encChar).flatten

/-- Validity of a URL scheme, the part of WHATWG `new URL` relevant here:
an input with no parsable scheme makes the constructor throw. -/
def schemeValid (s : JStr) : Bool :=
  match s with
  | [] => false
  | c :: t => c.isAlpha && t.all (fun d => d.isAlphanum || d = '+' || d = '-' || d = '.')

/-- Model of `new URL(u)` restricted to what the source consumes: `none`
models a thrown `TypeError`, `some q` the raw query string (after the first
`?`, before any `#`, empty when `?` is absent). -/
def parseQueryString (u : JStr) : Option JStr :=
  match splitFirst ':' u with
  | none => none
  | some (scheme, _) =>
    if schemeValid scheme then
      some (match splitFirst '?' u with
        | none => []
        | some (_, afterQ) =>
          match splitFirst '#' afterQ with
          | none => afterQ
          | some (beforeHash, _) => beforeHash)
    else none

/-- Non-empty `&`-separated segments of a query string. -/
def queryPairs (q : JStr) : List JStr :=
  if q = [] then [] else (splitOnChar '&' q).filter (fun p => p ≠ [])

/-- Key and raw value of one query segment. -/
def pairKeyVal (pair : JStr) : JStr × JStr :=
  match splitFirst '=' pair with
  | none => (pair, [])
  | some (k, v) => (k, v)

/-- Model of `URLSearchParams#get`: first value under `key`, form-decoded;
`none` models both `has(key) = false` and a `null` result. -/
def getParam (key : JStr) (q : JStr) : Option JStr :=
  (queryPairs q).findSome? (fun pair =>
    let kv := pairKeyVal pair
    if formDecode kv.1 = key then some (formDecode kv.2) else none)

/-- The `startsWith('http')` check the source uses. -/
def startsHttp (s : JStr) : Bool := List.isPrefixOf (jstr ("http")) s

/-- Fuel-indexed body of `decLoop`; each iteration strictly shrinks the
string, so fuel `length + 1` always suffices. -/
def decLoopF : Nat → JStr → Option JStr
  | 0, _ => none
  | fuel + 1, cur =>
    match strictDecode cur with
    | none => none
    | some d => if startsHttp d ∧ d ≠ cur then decLoopF fuel d else some cur

/-- The do-while loop of `extractUrl` (src/index.js lines 234-239):
repeatedly `decodeURIComponent` while the decoded form starts with `http`
and still changes; `none` models a thrown `URIError`. -/
def decLoop (cur : JStr) : Option JStr := decLoopF (cur.length + 1) cur

def uKey : JStr := jstr ("u")

def urlKey : JStr := jstr ("url")

/-- The body of `extractUrl` up to its catch handler: `none` means some
step threw. -/
def extractUrlCore (url : JStr) : Option JStr :=
  match parseQueryString url with
  | none => none
  | some q =>
    let afterU : Option JStr :=
      match getParam uKey q with
      | some v => strictDecode v
      | none => some url
    match afterU with
    | none => none
    | some cur1 =>
      let afterUrl : Option JStr :=
        match getParam urlKey q with
        | some v => strictDecode v
        | none => some cur1
      match afterUrl with
      | none => none
      | some cur2 => decLoop cur2

/-- Model of `extractUrl` (src/index.js lines 221-246): the URL normalizer;
on any error the original input is returned. -/
def extractUrl (url : JStr) : JStr := (extractUrlCore url).getD url

/-- Decimal value of a digit string. -/
def digitsVal (l : JStr) : Nat := l.foldl (fun a c => a * 10 + (c.toNat - 48)) 0

/-- Hex value of a hex-digit string. -/
def hexDigitsVal (l : JStr) : Nat := l.foldl (fun a c => a * 16 + ((hexVal c).getD 0)) 0

def isHexDigitJs (c : Char) : Bool := (hexVal c).isSome

/-- Decimal branch of `parseInt`. -/
def decimalDigits (sign : Int) (s : JStr) : Option Int :=
  let ds := s.takeWhile Char.isDigit
  if ds = [] then none else some (sign * (digitsVal ds : Int))

/-- Strip an optional leading sign, as `parseInt` does. -/
def signSplit (s : JStr) : Int × JStr :=
  match s with
  | '-' :: t => (-1, t)
  | '+' :: t => (1, t)
  | _ => (1, s)

/-- The digits-or-hex dispatch of `parseInt` after sign stripping. -/
def parseIntBody (sign : Int) (s2 : JStr) : Option Int :=
  match s2 with
  | '0' :: c :: t =>
    if c = 'x' ∨ c = 'X' then
      let hs := t.takeWhile isHexDigitJs
      if hs = [] then none else some (sign * (hexDigitsVal hs : Int))
    else decimalDigits sign s2
  | _ => decimalDigits sign s2

/-- Model of JavaScript `parseInt` (radix 10 or auto-detected hex):
`none` models a `NaN` result. -/
def jsParseInt (s : JStr) : Option Int :=
  let sr := signSplit (s.dropWhile Char.isWhitespace)
  parseIntBody sr.1 sr.2

/-- First space-separated field, as `cronPattern.split(' ')[0]`. -/
def firstField (s : JStr) : JStr := (splitOnChar ' ' s).headD []

/-- Model of `parseCheckInterval` (src/index.js lines 53-60).  `Except.error`
models the thrown `Error`; the payload is the computed number of
milliseconds, `none` standing for `NaN`. -/
def parseCheckInterval (cronPattern : JStr) : Except Unit (Option Int) :=
  let f := firstField cronPattern
  if List.isPrefixOf (jstr ("*/")) f then
    Except.ok ((jsParseInt (f.drop 2)).map (fun n => n * 60000))
  else Except.error ()

/-- Model of `String.prototype.trim`. -/
def jsTrim (s : JStr) : JStr :=
  ((s.dropWhile Char.isWhitespace).reverse.dropWhile Char.isWhitespace).reverse

end PageScraper

namespace PageScraper

/-- Decidable equality for thrown-or-returned results. -/
instance {e a : Type} [DecidableEq e] [DecidableEq a] : DecidableEq (Except e a) := fun x y =>
  match x, y with
  | Except.ok v, Except.ok w => if h : v = w then isTrue (by rw [h]) else isFalse (by simp [h])
  | Except.error v, Except.error w => if h : v = w then isTrue (by rw [h]) else isFalse (by simp [h])
  | Except.ok _, Except.error _ => isFalse (by simp)
  | Except.error _, Except.ok _ => isFalse (by simp)

/-- JavaScript truthiness for an optional string (`undefined` and the empty
string are falsy). -/
def jsTruthy (v : Option JStr) : Bool :=
  match v with
  | none => false
  | some s => s ≠ []

/-- JavaScript `a || b` on optional strings: `b` when `a` is falsy. -/
def jsOr (a b : Option JStr) : Option JStr := if jsTruthy a then a else b

/-- The string `decodeURIComponent` receives when its argument is the
JavaScript value `undefined`. -/
def undefinedStr : JStr := jstr ("undefined")

/-- One `SeenPostRecord` of the persisted store: `url` is `none` when the
stored value is JSON `null`. -/
structure SeenPostRecord where
  url : Option JStr
  timestamp : JStr
deriving DecidableEq, Repr

/-- The in-memory store `storage.posts`, an association of page name to
record. -/
structure Storage where
  posts : List (JStr × SeenPostRecord)
deriving DecidableEq, Repr

/-- Lookup `storage.posts[pageName]` (`none` models `undefined`). -/
def Storage.find (s : Storage) (p : JStr) : Option SeenPostRecord :=
  s.posts.findSome? (fun kv => if kv.1 = p then some kv.2 else none)

def setAssoc (l : List (JStr × SeenPostRecord)) (p : JStr) (r : SeenPostRecord) :
    List (JStr × SeenPostRecord) :=
  match l with
  | [] => [(p, r)]
  | kv :: t => if kv.1 = p then (p, r) :: t else kv :: setAssoc t p r

/-- The assignment `storage.posts[pageName] = record`. -/
def Storage.set (s : Storage) (p : JStr) (r : SeenPostRecord) : Storage :=
  ⟨setAssoc s.posts p r⟩

/-- The strict-equality test `storage.posts[pageName]?.url === fullPostUrl`
(src/index.js line 104): an absent record gives `undefined`, which is
strictly equal neither to `null` nor to any string. -/
def seenMatch (rec : Option SeenPostRecord) (u : Option JStr) : Bool :=
  match rec with
  | none => false
  | some r => r.url = u

/-- The link-preview element found by the selector list at lines 107-111,
reduced to the four attribute lookups the code performs on it. -/
structure LinkPreviewEl where
  dataLynxUri : Option JStr
  anchorHref : Option JStr
  closestAnchorHref : Option JStr
  imgParentHref : Option JStr
deriving DecidableEq, Repr

/-- One `img` element of the post: its `src` attribute and the
`content-length` header reported by the `HEAD` probe of that source
(`none` when the header is absent). -/
structure ImgEl where
  src : Option JStr
  contentLength : Option JStr
deriving DecidableEq, Repr

/-- The first `div[role="article"]` element, reduced to the queries
`processWebPost` makes on it.  `videoSrc = some a` means a `video` element
exists with `src` attribute `a`; `permalinkHref` is the `href` of the first
anchor matching `a[href*="/posts/"]`. -/
structure PostEl where
  permalinkHref : Option JStr
  linkPreview : Option LinkPreviewEl
  videoSrc : Option (Option JStr)
  images : List ImgEl
  messageText : JStr
deriving DecidableEq, Repr

/-- Fetched page markup, reduced to the first post element query. -/
structure Markup where
  firstPost : Option PostEl
deriving DecidableEq, Repr

/-- Outcome oracle for one `downloadMedia` call: whether `open`, the
download stream, the ffmpeg pass and the final `close` succeed. -/
structure MediaOutcome where
  openOk : Bool
  getOk : Bool
  encodeOk : Bool
  closeOk : Bool
deriving DecidableEq, Repr

inductive MediaKind where
  | video
  | image
deriving DecidableEq, Repr

/-- A `content.media` entry; `path` is `none` when the download returned
`null`. -/
structure MediaItem where
  kind : MediaKind
  path : Option JStr
deriving DecidableEq, Repr

/-- The `embeddedLink` object. -/
structure EmbeddedLink where
  url : JStr
deriving DecidableEq, Repr

/-- The `content` record `processWebPost` returns. -/
structure Content where
  text : JStr
  media : List MediaItem
  url : Option JStr
  embeddedLink : Option EmbeddedLink
  timestamp : JStr
deriving DecidableEq, Repr

/-- Side effects of one page check, in program order. -/
inductive Effect where
  | previewLookup
  | headProbe (url : JStr)
  | downloadReq (url : JStr) (kind : MediaKind)
  | storeWrite
  | sendMsg (channelId : JStr)
  | unlinkFile (path : JStr)
deriving DecidableEq, Repr

/-- Environment of one `processWebPost` call: the fetched markup (`none`
models a thrown driver error), download outcome oracles, the clock values
and the media directory. -/
structure Env where
  fetch : Option Markup
  videoOutcome : MediaOutcome
  imageOutcome : Nat → MediaOutcome
  nowMs : JStr
  nowIso : JStr
  mediaDir : JStr

def extVideo : JStr := jstr ("mp4")

def extImage : JStr := jstr ("jpg")

/-- The generated file path of `downloadMedia` (src/index.js lines 189-191). -/
def mediaFilePath (mediaDir pageName nowMs : JStr) (kind : MediaKind) (idx : Nat) : JStr :=
  mediaDir ++ jstr ("/") ++ pageName ++ jstr ("_") ++ nowMs ++ jstr ("_") ++
    jstr (toString idx) ++ jstr (".") ++ (match kind with | .video => extVideo | .image => extImage)

/-- Model of `downloadMedia` (src/index.js lines 188-219).  `Except.error`
models a thrown exception: `open` runs before the `try`, so its failure
propagates, as does a failing `close` in the `finally`; every failure
inside the `try` is caught and yields `Except.ok none` (the function
returns `null`). -/
def downloadMedia (o : MediaOutcome) (filePath : JStr) (kind : MediaKind) :
    Except Unit (Option JStr) :=
  if o.openOk = false then Except.error ()
  else
    let body : Option JStr :=
      if o.getOk then
        if kind = MediaKind.video ∧ o.encodeOk = false then none else some filePath
      else none
    if o.closeOk = false then Except.error () else Except.ok body

/-- The canonical post URL of lines 100-101: `href` of the first permalink
anchor with its query string stripped, `null` when absent or empty. -/
def canonicalPostUrl (post : PostEl) : Option JStr :=
  match post.permalinkHref with
  | none => none
  | some h =>
    let stripped := h.takeWhile (fun c => c ≠ '?')
    if stripped = [] then none else some stripped

/-- The embedded-link computation of lines 115-136.  A thrown
`decodeURIComponent` is caught by the surrounding `catch`, leaving
`embeddedLink` null; `extractUrl` itself never throws. -/
def computeEmbeddedLink (lp : LinkPreviewEl) : Option EmbeddedLink :=
  let raw := jsOr (jsOr lp.dataLynxUri lp.anchorHref) lp.closestAnchorHref
  let rawStr := match raw with
    | none => undefinedStr
    | some s => s
  match strictDecode rawStr with
  | none => none
  | some dec =>
    let u := extractUrl dec
    if startsHttp u then some ⟨u⟩
    else
      match lp.imgParentHref with
      | some l => if l ≠ [] then some ⟨extractUrl l⟩ else some ⟨u⟩
      | none => some ⟨u⟩

/-- The video branch of lines 147-155: an existing `video` element with a
truthy `src` is downloaded; a thrown `downloadMedia` (its `open` or `close`
failing) propagates out of `processWebPost`. -/
def handleVideo (env : Env) (pageName : JStr) (post : PostEl) :
    Except Unit (List MediaItem) × List Effect :=
  match post.videoSrc with
  | none => (Except.ok [], [])
  | some srcAttr =>
    if jsTruthy srcAttr then
      let src := srcAttr.getD []
      let fp := mediaFilePath env.mediaDir pageName env.nowMs MediaKind.video 0
      match downloadMedia env.videoOutcome fp MediaKind.video with
      | Except.error _ => (Except.error (), [Effect.downloadReq src MediaKind.video])
      | Except.ok p => (Except.ok [⟨MediaKind.video, p⟩], [Effect.downloadReq src MediaKind.video])
    else (Except.ok [], [])

/-- The per-image callback of lines 159-172: a truthy `http`-prefixed `src`
is probed with a `HEAD` request and downloaded exactly when the reported
`content-length` is truthy and parses above 2048; the callback is detached,
so a thrown download only kills the callback, not the page check. -/
def handleImage (env : Env) (pageName : JStr) (idx : Nat) (img : ImgEl) :
    List MediaItem × List Effect :=
  match img.src with
  | none => ([], [])
  | some src =>
    if src ≠ [] ∧ startsHttp src then
      match img.contentLength with
      | none => ([], [Effect.headProbe src])
      | some cl =>
        if cl ≠ [] ∧ (match jsParseInt cl with | some n => decide (2048 < n) | none => false) = true then
          let fp := mediaFilePath env.mediaDir pageName env.nowMs MediaKind.image idx
          match downloadMedia (env.imageOutcome idx) fp MediaKind.image with
          | Except.error _ => ([], [Effect.headProbe src, Effect.downloadReq src MediaKind.image])
          | Except.ok p =>
            ([⟨MediaKind.image, p⟩], [Effect.headProbe src, Effect.downloadReq src MediaKind.image])
        else ([], [Effect.headProbe src])
    else ([], [])

/-- All image callbacks of one post, in element order. -/
def handleImages (env : Env) (pageName : JStr) (post : PostEl) :
    List MediaItem × List Effect :=
  let results := post.images.enum.map (fun pr => handleImage env pageName pr.1 pr.2)
  (((results.map Prod.fst).flatten), ((results.map Prod.snd).flatten))

/-- The `embeddedLink` value after lines 113-136: null when no preview
element matched, otherwise the computed link. -/
def pwpEmbedded (post : PostEl) : Option EmbeddedLink :=
  match post.linkPreview with
  | none => none
  | some lp => computeEmbeddedLink lp

/-- The media block of lines 146-173: skipped entirely when an embedded
link is present, otherwise video first and then the image callbacks. -/
def mediaPhase (env : Env) (pageName : JStr) (post : PostEl)
    (embedded : Option EmbeddedLink) : Except Unit (List MediaItem) × List Effect :=
  if embedded.isSome then (Except.ok [], [])
  else
    match handleVideo env pageName post with
    | (Except.error _, veffs) => (Except.error (), veffs)
    | (Except.ok vmedia, veffs) =>
      let im := handleImages env pageName post
      (Except.ok (vmedia ++ im.1), veffs ++ im.2)

/-- Model of `processWebPost` (src/index.js lines 79-186).  The result is
the returned value (`Except.error` models a thrown exception, caught by the
caller), the storage after the call, and the trace of side effects. -/
def processWebPost (env : Env) (pageName : JStr) (st : Storage) :
    Except Unit (Option Content) × Storage × List Effect :=
  match env.fetch with
  | none => (Except.error (), st, [])
  | some mk =>
    match mk.firstPost with
    | none => (Except.ok none, st, [])
    | some post =>
      let fullPostUrl := canonicalPostUrl post
      if seenMatch (st.find pageName) fullPostUrl then (Except.ok none, st, [])
      else
        match mediaPhase env pageName post (pwpEmbedded post) with
        | (Except.error _, meffs) => (Except.error (), st, Effect.previewLookup :: meffs)
        | (Except.ok media, meffs) =>
          let content : Content :=
            { text := jsTrim post.messageText
              media := media
              url := fullPostUrl
              embeddedLink := pwpEmbedded post
              timestamp := env.nowIso }
          (Except.ok (some content),
            st.set pageName ⟨fullPostUrl, env.nowIso⟩,
            Effect.previewLookup :: meffs ++ [Effect.storeWrite])

end PageScraper

namespace PageScraper

/-- Environment of one `sendDiscordMessage` call: whether the channel
fetch succeeds, the sizes `stat` reports (`none` models a thrown `stat`),
and whether `channel.send` succeeds. -/
structure SendEnv where
  channelFetchOk : Bool
  stat : JStr → Option Nat
  sendOk : Bool

/-- Model of `sendDiscordMessage` (src/index.js lines 248-305): result
(`Except.error` models a thrown exception), effect trace, attached file
paths, and the paths whose deletion was attempted.  When the embedded-link
url is truthy no attachments are collected; otherwise each media item with
a truthy path and a `stat` size strictly below 25,000,000 is attached and
queued for deletion; deletions run only after a successful `send`. -/
def sendDiscordMessage (env : SendEnv) (channelId : JStr) (content : Content) :
    Except Unit Unit × List Effect × List JStr × List JStr :=
  if env.channelFetchOk = false then (Except.error (), [], [], [])
  else
    let attachPlan : List JStr :=
      if jsTruthy (content.embeddedLink.map EmbeddedLink.url) then []
      else
        content.media.filterMap (fun m =>
          match m.path with
          | some p =>
            if p ≠ [] then
              match env.stat p with
              | some size => if size < 25000000 then some p else none
              | none => none
            else none
          | none => none)
    if env.sendOk then
      (Except.ok (), Effect.sendMsg channelId :: attachPlan.map Effect.unlinkFile,
        attachPlan, attachPlan)
    else (Except.error (), [Effect.sendMsg channelId], attachPlan, [])

/-- Environment of one `monitorPage` call. -/
structure CycleEnv where
  pwp : Env
  send : SendEnv

/-- Model of `monitorPage` (src/index.js lines 307-314): run
`processWebPost`, and only when it returns content call
`sendDiscordMessage`; every exception is caught and logged.  Returns the
storage after the cycle, the combined effect trace, and the delivery
result (`none` when no delivery was attempted). -/
def monitorPage (env : CycleEnv) (pageConfig : JStr × JStr) (st : Storage) :
    Storage × List Effect × Option (Except Unit Unit) :=
  match processWebPost env.pwp pageConfig.1 st with
  | (Except.error _, st1, effs) => (st1, effs, none)
  | (Except.ok none, st1, effs) => (st1, effs, none)
  | (Except.ok (some content), st1, effs) =>
    match sendDiscordMessage env.send pageConfig.2 content with
    | (sres, seffs, _, _) => (st1, effs ++ seffs, some sres)

/-- Returned value of one `processWebPost` call. -/
def pwpResult (env : Env) (p : JStr) (st : Storage) : Except Unit (Option Content) :=
  (processWebPost env p st).1

/-- Storage after one `processWebPost` call. -/
def pwpStorage (env : Env) (p : JStr) (st : Storage) : Storage :=
  (processWebPost env p st).2.1

/-- Effect trace of one `processWebPost` call. -/
def pwpEffects (env : Env) (p : JStr) (st : Storage) : List Effect :=
  (processWebPost env p st).2.2

/-- Storage after one `monitorPage` cycle. -/
def cycleStorage (env : CycleEnv) (pc : JStr × JStr) (st : Storage) : Storage :=
  (monitorPage env pc st).1

/-- Effect trace of one `monitorPage` cycle. -/
def cycleTrace (env : CycleEnv) (pc : JStr × JStr) (st : Storage) : List Effect :=
  (monitorPage env pc st).2.1

/-- Delivery result of one `monitorPage` cycle. -/
def cycleSendResult (env : CycleEnv) (pc : JStr × JStr) (st : Storage) :
    Option (Except Unit Unit) :=
  (monitorPage env pc st).2.2

/-- Effect `a` occurs strictly before effect `b` in trace `l`. -/
def precedes (a b : Effect) (l : List Effect) : Prop :=
  ∃ i j : Nat, i < j ∧ l[i]? = some a ∧ l[j]? = some b

end PageScraper

namespace PageScraper

theorem find_setAssoc (l : List (JStr × SeenPostRecord)) (p : JStr) (r : SeenPostRecord) :
    Storage.find ⟨setAssoc l p r⟩ p = some r := by
  induction l with
  | nil => simp [setAssoc, Storage.find]
  | cons kv t ih =>
    by_cases h : kv.1 = p
    · simp [setAssoc, h, Storage.find]
    · simpa [setAssoc, h, Storage.find, List.findSome?] using ih

theorem Storage.find_set (s : Storage) (p : JStr) (r : SeenPostRecord) :
    (s.set p r).find p = some r := find_setAssoc s.posts p r

theorem Storage.set_ne_of_find_ne (s : Storage) (p : JStr) (r : SeenPostRecord)
    (h : s.find p ≠ some r) : s.set p r ≠ s := by
  intro he
  exact h (he ▸ Storage.find_set s p r)

theorem precedes_append (a b : Effect) (l1 l2 : List Effect) (ha : a ∈ l1) (hb : b ∈ l2) :
    precedes a b (l1 ++ l2) := by
  obtain ⟨i, hi, hieq⟩ := List.mem_iff_getElem.mp ha
  obtain ⟨j, hj, hjeq⟩ := List.mem_iff_getElem.mp hb
  refine ⟨i, l1.length + j, by omega, ?_, ?_⟩
  · rw [List.getElem?_append, if_pos (by omega), List.getElem?_eq_getElem hi, hieq]
  · rw [List.getElem?_append, if_neg (by omega)]
    simp only [Nat.add_sub_cancel_left]
    rw [List.getElem?_eq_getElem hj, hjeq]

end PageScraper

namespace PageScraper

theorem isDigit_not_whitespace (c : Char) (h : c.isDigit = true) : c.isWhitespace = false := by
  by_cases h1 : c = ' '
  · subst h1; exact absurd h (by decide)
  by_cases h2 : c = '\t'
  · subst h2; exact absurd h (by decide)
  by_cases h3 : c = '\r'
  · subst h3; exact absurd h (by decide)
  by_cases h4 : c = '\n'
  · subst h4; exact absurd h (by decide)
  simp [Char.isWhitespace, h1, h2, h3, h4]

theorem isDigit_ne_dash (c : Char) (h : c.isDigit = true) : c ≠ '-' := by
  intro he; subst he; exact absurd h (by decide)

theorem isDigit_ne_plus (c : Char) (h : c.isDigit = true) : c ≠ '+' := by
  intro he; subst he; exact absurd h (by decide)

theorem isDigit_ne_x (c : Char) (h : c.isDigit = true) : ¬ (c = 'x' ∨ c = 'X') := by
  rintro (he | he) <;> subst he <;> exact absurd h (by decide)

theorem signSplit_of_digit (d : Char) (t : JStr) (hd : d.isDigit = true) :
    signSplit (d :: t) = (1, d :: t) := by
  unfold signSplit
  split
  · rename_i s1 t1 heq
    exact absurd (by injection heq : d = '-') (isDigit_ne_dash d hd)
  · rename_i s1 t1 heq
    exact absurd (by injection heq : d = '+') (isDigit_ne_plus d hd)
  · rfl

theorem jsParseInt_digits (ds : JStr) (hne : ds ≠ []) (hall : ds.all Char.isDigit = true) :
    jsParseInt ds = some (digitsVal ds) := by
  obtain ⟨d, t, rfl⟩ : ∃ d t, ds = d :: t := by
    cases ds with
    | nil => exact absurd rfl hne
    | cons d t => exact ⟨d, t, rfl⟩
  simp only [List.all_cons, Bool.and_eq_true] at hall
  have hd := hall.1
  have hdrop : (d :: t).dropWhile Char.isWhitespace = d :: t := by
    rw [List.dropWhile_cons]
    simp [isDigit_not_whitespace d hd]
  have htake : (d :: t).takeWhile Char.isDigit = d :: t :=
    List.takeWhile_eq_self_iff.mpr (by
      intro x hx
      cases hx with
      | head => exact hd
      | tail _ hxt => exact List.all_eq_true.mp hall.2 x hxt)
  have hdec : decimalDigits 1 (d :: t) = some (digitsVal (d :: t)) := by
    simp only [decimalDigits, htake]
    rw [if_neg (by simp)]
    simp
  unfold jsParseInt
  simp only [hdrop, signSplit_of_digit d t hd]
  unfold parseIntBody
  split
  · rename_i c t1 heq
    have hdz : d = '0' := by injection heq
    have hct : t = c :: t1 := by injection heq
    have hcdig : c.isDigit = true := by
      have ht2 := hall.2
      rw [hct] at ht2
      simp only [List.all_cons, Bool.and_eq_true] at ht2
      exact ht2.1
    rw [if_neg (isDigit_ne_x c hcdig)]
    exact hdec
  · exact hdec

/-- The shape the claim calls the simple "every N minutes" form: a first
cron field that is literally `*/` followed by decimal digits. -/
def isSimpleCronForm (s : JStr) : Bool :=
  match firstField s with
  | '*' :: '/' :: ds => ds ≠ [] && ds.all Char.isDigit
  | _ => false

/-- C9 counterexample: the pattern `*/x * * * *` is not of the `*/N` form,
yet `parseCheckInterval` does not throw: `parseInt('x')` is `NaN`, which
propagates into the computed interval instead of raising an error. -/
theorem parseCheckInterval_nan_counterexample :
    isSimpleCronForm (jstr ("*/x * * * *")) = false ∧
    parseCheckInterval (jstr ("*/x * * * *")) = Except.ok none := by
  constructor
  · decide
  · decide

/-- C9 (amended): parsing throws exactly when the first cron field does not
start with `*/`; every pattern whose first field is `*/` followed by
decimal digits yields that number of minutes times 60,000 milliseconds; a
`*/`-prefixed field that does not parse as a number yields `NaN` rather
than an error. -/
theorem parseCheckInterval_amended :
    (∀ s : JStr, List.isPrefixOf (jstr ("*/")) (firstField s) = false →
      parseCheckInterval s = Except.error ()) ∧
    (∀ s ds : JStr, firstField s = '*' :: '/' :: ds → ds ≠ [] →
      ds.all Char.isDigit = true →
      parseCheckInterval s = Except.ok (some ((digitsVal ds : Int) * 60000))) := by
  constructor
  · intro s h
    unfold parseCheckInterval
    simp only [h, Bool.false_eq_true, if_false]
  · intro s ds hf hne hall
    unfold parseCheckInterval
    rw [hf]
    have hpre : List.isPrefixOf (jstr ("*/")) ('*' :: '/' :: ds) = true := by
      simp [jstr, List.isPrefixOf]
    rw [if_pos hpre]
    have hdrop : ('*' :: '/' :: ds).drop 2 = ds := rfl
    rw [hdrop, jsParseInt_digits ds hne hall]
    rfl

/-- Witness for the amended C9 theorem at concrete patterns. -/
theorem parseCheckInterval_amended_witness :
    parseCheckInterval (jstr ("0 12 * * *")) = Except.error () ∧
    parseCheckInterval (jstr ("*/30 * * * *")) = Except.ok (some 1800000) := by
  constructor
  · exact parseCheckInterval_amended.1 (jstr ("0 12 * * *")) (by decide)
  · have h := parseCheckInterval_amended.2 (jstr ("*/30 * * * *")) (jstr ("30"))
      (by decide) (by decide) (by decide)
    rw [h]
    decide

/-- C5 counterexample: `open(filePath, 'w')` runs before the `try` block of
`downloadMedia`, so a filesystem failure opening the destination file is
thrown to the caller instead of producing a `null` return. -/
theorem downloadMedia_open_failure_throws :
    downloadMedia ⟨false, true, true, true⟩ (jstr ("media/alpha_1_0.jpg")) MediaKind.image =
      Except.error () := by decide

/-- C5 (amended): once the destination file has been opened and as long as
its final `close` succeeds, every network, stream or encode failure makes
`downloadMedia` return `null` rather than throw; only a filesystem failure
opening (or closing) the destination file propagates to the caller. -/
theorem downloadMedia_no_throw_after_open (o : MediaOutcome) (fp : JStr) (k : MediaKind)
    (h1 : o.openOk = true) (h2 : o.closeOk = true) :
    downloadMedia o fp k ≠ Except.error () ∧
    ((o.getOk = false ∨ (k = MediaKind.video ∧ o.encodeOk = false)) →
      downloadMedia o fp k = Except.ok none) := by
  unfold downloadMedia
  simp only [h1, h2]
  constructor
  · simp
  · rintro (hg | ⟨hk, he⟩)
    · simp [hg]
    · subst hk
      simp [he]

/-- Witness for the amended C5 theorem: a failed network stream yields a
`null` return, not an exception. -/
theorem downloadMedia_no_throw_after_open_witness :
    downloadMedia ⟨true, false, true, true⟩ (jstr ("media/alpha_1_0.jpg")) MediaKind.image ≠
        Except.error () ∧
    downloadMedia ⟨true, false, true, true⟩ (jstr ("media/alpha_1_0.jpg")) MediaKind.image =
      Except.ok none := by
  have h := downloadMedia_no_throw_after_open ⟨true, false, true, true⟩
    (jstr ("media/alpha_1_0.jpg")) MediaKind.image rfl rfl
  exact ⟨h.1, h.2 (Or.inl rfl)⟩

end PageScraper

namespace PageScraper

theorem mediaPhase_embedded_nil (env : Env) (p : JStr) (post : PostEl)
    (e : Option EmbeddedLink) (m : List MediaItem) (effs : List Effect)
    (h : mediaPhase env p post e = (Except.ok m, effs)) (he : e.isSome = true) :
    m = [] := by
  unfold mediaPhase at h
  rw [if_pos he] at h
  injection h with h1 h2
  injection h1 with h1
  exact h1.symm

theorem seenMatch_false_find_ne (st : Storage) (p : JStr) (u : Option JStr)
    (ts : JStr) (h : seenMatch (st.find p) u = false) :
    st.find p ≠ some ⟨u, ts⟩ := by
  intro he
  rw [he] at h
  simp [seenMatch] at h

theorem pwp_eq_of_fetch_fail (env : Env) (p : JStr) (st : Storage)
    (hf : env.fetch = none) : processWebPost env p st = (Except.error (), st, []) := by
  unfold processWebPost
  simp only [hf]

theorem pwp_eq_of_no_post (env : Env) (p : JStr) (st : Storage) (mk : Markup)
    (hf : env.fetch = some mk) (hp : mk.firstPost = none) :
    processWebPost env p st = (Except.ok none, st, []) := by
  unfold processWebPost
  simp only [hf, hp]

theorem pwp_eq_of_seen (env : Env) (p : JStr) (st : Storage) (mk : Markup) (post : PostEl)
    (hf : env.fetch = some mk) (hp : mk.firstPost = some post)
    (hseen : seenMatch (st.find p) (canonicalPostUrl post) = true) :
    processWebPost env p st = (Except.ok none, st, []) := by
  unfold processWebPost
  simp only [hf, hp, hseen, if_true]

theorem pwp_eq_of_media_throw (env : Env) (p : JStr) (st : Storage) (mk : Markup)
    (post : PostEl) (e : Unit) (meffs : List Effect)
    (hf : env.fetch = some mk) (hp : mk.firstPost = some post)
    (hseen : seenMatch (st.find p) (canonicalPostUrl post) = false)
    (hmp : mediaPhase env p post (pwpEmbedded post) = (Except.error e, meffs)) :
    processWebPost env p st = (Except.error (), st, Effect.previewLookup :: meffs) := by
  unfold processWebPost
  simp only [hf, hp, hseen, Bool.false_eq_true, if_false, hmp]

theorem pwp_eq_of_commit (env : Env) (p : JStr) (st : Storage) (mk : Markup)
    (post : PostEl) (media : List MediaItem) (meffs : List Effect)
    (hf : env.fetch = some mk) (hp : mk.firstPost = some post)
    (hseen : seenMatch (st.find p) (canonicalPostUrl post) = false)
    (hmp : mediaPhase env p post (pwpEmbedded post) = (Except.ok media, meffs)) :
    processWebPost env p st =
      (Except.ok (some ⟨jsTrim post.messageText, media, canonicalPostUrl post,
          pwpEmbedded post, env.nowIso⟩),
        st.set p ⟨canonicalPostUrl post, env.nowIso⟩,
        Effect.previewLookup :: meffs ++ [Effect.storeWrite]) := by
  unfold processWebPost
  simp only [hf, hp, hseen, Bool.false_eq_true, if_false, hmp]

theorem pwp_ok_some_inv (env : Env) (p : JStr) (st : Storage) (c : Content)
    (h : pwpResult env p st = Except.ok (some c)) :
    ∃ mk post, env.fetch = some mk ∧ mk.firstPost = some post ∧
      seenMatch (st.find p) (canonicalPostUrl post) = false ∧
      c.url = canonicalPostUrl post ∧ c.timestamp = env.nowIso ∧
      c.embeddedLink = pwpEmbedded post ∧
      (c.embeddedLink.isSome = true → c.media = []) ∧
      pwpStorage env p st = st.set p ⟨canonicalPostUrl post, env.nowIso⟩ ∧
      ∃ pre, pwpEffects env p st = Effect.previewLookup :: pre ++ [Effect.storeWrite] := by
  cases hf : env.fetch with
  | none =>
    rw [pwpResult, pwp_eq_of_fetch_fail env p st hf] at h
    exact absurd h (by simp)
  | some mk =>
    cases hp : mk.firstPost with
    | none =>
      rw [pwpResult, pwp_eq_of_no_post env p st mk hf hp] at h
      exact absurd h (by simp)
    | some post =>
      by_cases hseen : seenMatch (st.find p) (canonicalPostUrl post) = true
      · rw [pwpResult, pwp_eq_of_seen env p st mk post hf hp hseen] at h
        exact absurd h (by simp)
      · replace hseen := Bool.not_eq_true _ |>.mp hseen
        cases hmp : mediaPhase env p post (pwpEmbedded post) with
        | mk mres meffs =>
          cases mres with
          | error e =>
            rw [pwpResult, pwp_eq_of_media_throw env p st mk post e meffs hf hp hseen hmp] at h
            exact absurd h (by simp)
          | ok media =>
            have heq := pwp_eq_of_commit env p st mk post media meffs hf hp hseen hmp
            rw [pwpResult, heq] at h
            simp only [Except.ok.injEq, Option.some.injEq] at h
            subst h
            refine ⟨mk, post, ?_, ?_, hseen, rfl, rfl, rfl, ?_, ?_, ⟨meffs, ?_⟩⟩
            case _ => rfl
            case _ => exact hp
            · intro hsome
              exact mediaPhase_embedded_nil env p post (pwpEmbedded post) media meffs hmp hsome
            · rw [pwpStorage, heq]
            · rw [pwpEffects, heq]

end PageScraper

namespace PageScraper

theorem downloadMedia_isOk (o : MediaOutcome) (fp : JStr) (k : MediaKind)
    (h1 : o.openOk = true) (h2 : o.closeOk = true) :
    ∃ r, downloadMedia o fp k = Except.ok r := by
  unfold downloadMedia
  simp [h1, h2]

theorem handleVideo_ok (env : Env) (p : JStr) (post : PostEl)
    (h1 : env.videoOutcome.openOk = true) (h2 : env.videoOutcome.closeOk = true) :
    ∃ m effs, handleVideo env p post = (Except.ok m, effs) := by
  unfold handleVideo
  cases post.videoSrc with
  | none => exact ⟨[], [], rfl⟩
  | some srcAttr =>
    dsimp only
    by_cases ht : jsTruthy srcAttr = true
    · rw [if_pos ht]
      obtain ⟨r, hr⟩ := downloadMedia_isOk env.videoOutcome
        (mediaFilePath env.mediaDir p env.nowMs MediaKind.video 0) MediaKind.video h1 h2
      rw [hr]
      exact ⟨_, _, rfl⟩
    · rw [if_neg ht]
      exact ⟨[], [], rfl⟩

theorem handleVideo_no_storeWrite (env : Env) (p : JStr) (post : PostEl) :
    Effect.storeWrite ∉ (handleVideo env p post).2 := by
  unfold handleVideo
  cases post.videoSrc with
  | none => simp
  | some srcAttr =>
    dsimp only
    by_cases ht : jsTruthy srcAttr = true
    · rw [if_pos ht]
      cases hdm : downloadMedia env.videoOutcome
          (mediaFilePath env.mediaDir p env.nowMs MediaKind.video 0) MediaKind.video with
      | error e => simp
      | ok r => simp
    · rw [if_neg ht]
      simp

theorem mediaPhase_ok (env : Env) (p : JStr) (post : PostEl) (e : Option EmbeddedLink)
    (h1 : env.videoOutcome.openOk = true) (h2 : env.videoOutcome.closeOk = true) :
    ∃ m effs, mediaPhase env p post e = (Except.ok m, effs) := by
  unfold mediaPhase
  by_cases he : e.isSome = true
  · rw [if_pos he]
    exact ⟨[], [], rfl⟩
  · rw [if_neg he]
    obtain ⟨vm, veffs, hv⟩ := handleVideo_ok env p post h1 h2
    rw [hv]
    exact ⟨_, _, rfl⟩

theorem mediaPhase_error_no_storeWrite (env : Env) (p : JStr) (post : PostEl)
    (e : Option EmbeddedLink) (u : Unit) (meffs : List Effect)
    (h : mediaPhase env p post e = (Except.error u, meffs)) :
    Effect.storeWrite ∉ meffs := by
  unfold mediaPhase at h
  by_cases he : e.isSome = true
  · rw [if_pos he] at h
    exact absurd h (by simp)
  · rw [if_neg he] at h
    cases hv : handleVideo env p post with
    | mk vres veffs =>
      cases vres with
      | error ev =>
        rw [hv] at h
        injection h with h1 h2
        rw [← h2]
        have hnw := handleVideo_no_storeWrite env p post
        rw [hv] at hnw
        simpa using hnw
      | ok vm =>
        rw [hv] at h
        exact absurd h (by simp)

/-- C7: for every post the extractor returns, a detected embedded link and
media attachments are mutually exclusive: a present `embeddedLink` forces
an empty media sequence, and a non-empty media sequence forces a null
`embeddedLink`. -/
theorem embeddedLink_media_mutual_exclusion (env : Env) (p : JStr) (st : Storage)
    (c : Content) (h : pwpResult env p st = Except.ok (some c)) :
    (c.embeddedLink.isSome = true → c.media = []) ∧
    (c.media ≠ [] → c.embeddedLink = none) := by
  obtain ⟨mk, post, _, _, _, _, _, _, hmx, _, _⟩ := pwp_ok_some_inv env p st c h
  refine ⟨hmx, fun hm => ?_⟩
  cases he : c.embeddedLink with
  | none => rfl
  | some el => exact absurd (hmx (by rw [he]; rfl)) hm

/-- C3: when the stored record url strictly equals the canonical permalink
of the fetched first post, `processWebPost` returns null with the storage
unchanged and an empty effect trace: no link-preview lookup, no probe, no
download, no store write. -/
theorem duplicate_short_circuit (env : Env) (p : JStr) (st : Storage) (mk : Markup)
    (post : PostEl) (hf : env.fetch = some mk) (hp : mk.firstPost = some post)
    (hseen : seenMatch (st.find p) (canonicalPostUrl post) = true) :
    pwpResult env p st = Except.ok none ∧ pwpStorage env p st = st ∧
    pwpEffects env p st = [] := by
  have heq := pwp_eq_of_seen env p st mk post hf hp hseen
  exact ⟨by simp only [pwpResult, heq], by simp only [pwpStorage, heq],
    by simp only [pwpEffects, heq]⟩

/-- C10: on a fresh page whose first post has no permalink-shaped anchor,
the extractor proceeds, returns content with a null url and commits a
record with a null url; every later cycle whose first post again has no
permalink finds the stored null equal to the extracted null and returns
null without touching the store, so such a page is notified at most once. -/
theorem null_permalink_notified_once (env1 : Env) (p : JStr) (st : Storage)
    (mk1 : Markup) (post1 : PostEl)
    (h0 : st.find p = none)
    (hf1 : env1.fetch = some mk1) (hp1 : mk1.firstPost = some post1)
    (hperm1 : canonicalPostUrl post1 = none)
    (hv1 : env1.videoOutcome.openOk = true) (hv2 : env1.videoOutcome.closeOk = true) :
    ∃ c : Content, pwpResult env1 p st = Except.ok (some c) ∧ c.url = none ∧
      pwpStorage env1 p st = st.set p ⟨none, env1.nowIso⟩ ∧
      ∀ (env2 : Env) (mk2 : Markup) (post2 : PostEl),
        env2.fetch = some mk2 → mk2.firstPost = some post2 →
        canonicalPostUrl post2 = none →
        pwpResult env2 p (pwpStorage env1 p st) = Except.ok none ∧
        pwpStorage env2 p (pwpStorage env1 p st) = pwpStorage env1 p st ∧
        pwpEffects env2 p (pwpStorage env1 p st) = [] := by
  have hseen : seenMatch (st.find p) (canonicalPostUrl post1) = false := by
    rw [h0]; rfl
  obtain ⟨m, meffs, hmp⟩ := mediaPhase_ok env1 p post1 (pwpEmbedded post1) hv1 hv2
  have heq := pwp_eq_of_commit env1 p st mk1 post1 m meffs hf1 hp1 hseen hmp
  rw [hperm1] at heq
  have hstor : pwpStorage env1 p st = st.set p ⟨none, env1.nowIso⟩ := by
    simp only [pwpStorage, heq]
  refine ⟨⟨jsTrim post1.messageText, m, none, pwpEmbedded post1, env1.nowIso⟩,
    by simp only [pwpResult, heq], rfl, hstor, ?_⟩
  intro env2 mk2 post2 hf2 hp2 hperm2
  have hseen2 : seenMatch ((pwpStorage env1 p st).find p) (canonicalPostUrl post2) = true := by
    rw [hstor, Storage.find_set, hperm2]
    simp [seenMatch]
  have heq2 := pwp_eq_of_seen env2 p (pwpStorage env1 p st) mk2 post2 hf2 hp2 hseen2
  refine ⟨?_, ?_, ?_⟩
  · show (processWebPost env2 p (pwpStorage env1 p st)).1 = _
    rw [heq2]
  · show (processWebPost env2 p (pwpStorage env1 p st)).2.1 = _
    rw [heq2]
  · show (processWebPost env2 p (pwpStorage env1 p st)).2.2 = _
    rw [heq2]

/-- C1: the page record in storage is updated if and only if the cycle
successfully extracted a novel post: on a duplicate, a missing post or any
thrown error the storage and its file are untouched, and on a novel post
the record becomes exactly the extracted url and timestamp and the store
write is performed. -/
theorem record_update_iff_novel (env : Env) (p : JStr) (st : Storage) :
    (match pwpResult env p st with
     | Except.ok (some c) =>
        pwpStorage env p st = st.set p ⟨c.url, c.timestamp⟩ ∧
        pwpStorage env p st ≠ st ∧ Effect.storeWrite ∈ pwpEffects env p st
     | _ => pwpStorage env p st = st ∧ Effect.storeWrite ∉ pwpEffects env p st) := by
  cases hf : env.fetch with
  | none =>
    have heq := pwp_eq_of_fetch_fail env p st hf
    simp only [pwpResult, pwpStorage, pwpEffects, heq]
    simp
  | some mk =>
    cases hp : mk.firstPost with
    | none =>
      have heq := pwp_eq_of_no_post env p st mk hf hp
      simp only [pwpResult, pwpStorage, pwpEffects, heq]
      simp
    | some post =>
      by_cases hseen : seenMatch (st.find p) (canonicalPostUrl post) = true
      · have heq := pwp_eq_of_seen env p st mk post hf hp hseen
        simp only [pwpResult, pwpStorage, pwpEffects, heq]
        simp
      · replace hseen := Bool.not_eq_true _ |>.mp hseen
        cases hmp : mediaPhase env p post (pwpEmbedded post) with
        | mk mres meffs =>
          cases mres with
          | error e =>
            have heq := pwp_eq_of_media_throw env p st mk post e meffs hf hp hseen hmp
            simp only [pwpResult, pwpStorage, pwpEffects, heq]
            refine ⟨trivial, ?_⟩
            intro hmem
            rcases List.mem_cons.mp hmem with hc | hc
            · exact absurd hc (by simp)
            · exact mediaPhase_error_no_storeWrite env p post (pwpEmbedded post) e meffs hmp hc
          | ok media =>
            have heq := pwp_eq_of_commit env p st mk post media meffs hf hp hseen hmp
            simp only [pwpResult, pwpStorage, pwpEffects, heq]
            refine ⟨trivial, ?_, by simp⟩
            exact Storage.set_ne_of_find_ne st p ⟨canonicalPostUrl post, env.nowIso⟩
              (seenMatch_false_find_ne st p (canonicalPostUrl post) env.nowIso hseen)

end PageScraper

namespace PageScraper

/-- All-success download oracle used by concrete witnesses. -/
def wOutcome : MediaOutcome := ⟨true, true, true, true⟩

/-- A post carrying a link-preview element. -/
def wPostLink : PostEl :=
  ⟨some (jstr ("/posts/7?ref=1")), some ⟨some (jstr ("http://t.example/")), none, none, none⟩,
    none, [], jstr ("hi")⟩

def wEnvLink : Env :=
  ⟨some ⟨some wPostLink⟩, wOutcome, fun _ => wOutcome, jstr ("111"), jstr ("t0"), jstr ("media")⟩

/-- The content the extractor produces for `wPostLink` on a fresh store. -/
def wContentLink : Content :=
  ⟨jstr ("hi"), [], some (jstr ("/posts/7")), some ⟨jstr ("http://t.example/")⟩, jstr ("t0")⟩

/-- Witness for C7 at a concrete link-preview post. -/
theorem embeddedLink_media_mutual_exclusion_witness :
    (wContentLink.embeddedLink.isSome = true → wContentLink.media = []) ∧
    (wContentLink.media ≠ [] → wContentLink.embeddedLink = none) :=
  embeddedLink_media_mutual_exclusion wEnvLink (jstr ("alpha")) ⟨[]⟩ wContentLink (by decide)

/-- A post whose permalink matches the stored record. -/
def wPostSeen : PostEl := ⟨some (jstr ("/posts/100?ref=2")), none, none, [], jstr ("x")⟩

def wEnvSeen : Env :=
  ⟨some ⟨some wPostSeen⟩, wOutcome, fun _ => wOutcome, jstr ("111"), jstr ("t1"), jstr ("media")⟩

def wStSeen : Storage := ⟨[(jstr ("alpha"), ⟨some (jstr ("/posts/100")), jstr ("t0")⟩)]⟩

/-- Witness for C3 at a concrete duplicate post. -/
theorem duplicate_short_circuit_witness :
    pwpResult wEnvSeen (jstr ("alpha")) wStSeen = Except.ok none ∧
    pwpStorage wEnvSeen (jstr ("alpha")) wStSeen = wStSeen ∧
    pwpEffects wEnvSeen (jstr ("alpha")) wStSeen = [] :=
  duplicate_short_circuit wEnvSeen (jstr ("alpha")) wStSeen ⟨some wPostSeen⟩ wPostSeen
    rfl rfl (by decide)

/-- A post with no permalink-shaped anchor. -/
def wPostNoPerm : PostEl := ⟨none, none, none, [], jstr ("y")⟩

def wEnvNoPerm : Env :=
  ⟨some ⟨some wPostNoPerm⟩, wOutcome, fun _ => wOutcome, jstr ("111"), jstr ("t2"), jstr ("media")⟩

/-- Witness for C10 at a concrete permalink-free post: the first cycle
commits a null-url record. -/
theorem null_permalink_notified_once_witness :
    pwpStorage wEnvNoPerm (jstr ("beta")) ⟨[]⟩ =
      Storage.set ⟨[]⟩ (jstr ("beta")) ⟨none, jstr ("t2")⟩ := by
  obtain ⟨c, h1, h2, h3, h4⟩ := null_permalink_notified_once wEnvNoPerm (jstr ("beta")) ⟨[]⟩
    ⟨some wPostNoPerm⟩ wPostNoPerm rfl rfl rfl rfl rfl rfl
  exact h3

end PageScraper

namespace PageScraper

/-- Returned value of one `sendDiscordMessage` call. -/
def sdmResult (env : SendEnv) (ch : JStr) (content : Content) : Except Unit Unit :=
  (sendDiscordMessage env ch content).1

/-- Effect trace of one `sendDiscordMessage` call. -/
def sdmEffects (env : SendEnv) (ch : JStr) (content : Content) : List Effect :=
  (sendDiscordMessage env ch content).2.1

/-- Paths attached to the outgoing message. -/
def sdmAttached (env : SendEnv) (ch : JStr) (content : Content) : List JStr :=
  (sendDiscordMessage env ch content).2.2.1

/-- Paths whose deletion was attempted. -/
def sdmDeleted (env : SendEnv) (ch : JStr) (content : Content) : List JStr :=
  (sendDiscordMessage env ch content).2.2.2

/-- The attachment selection of lines 262-282. -/
def attachPlanOf (env : SendEnv) (content : Content) : List JStr :=
  if jsTruthy (content.embeddedLink.map EmbeddedLink.url) then []
  else
    content.media.filterMap (fun m =>
      match m.path with
      | some p =>
        if p ≠ [] then
          match env.stat p with
          | some size => if size < 25000000 then some p else none
          | none => none
        else none
      | none => none)

theorem sdm_eq (env : SendEnv) (ch : JStr) (content : Content)
    (hch : env.channelFetchOk = true) :
    sendDiscordMessage env ch content =
      (if env.sendOk then
        (Except.ok (), Effect.sendMsg ch :: (attachPlanOf env content).map Effect.unlinkFile,
          attachPlanOf env content, attachPlanOf env content)
      else (Except.error (), [Effect.sendMsg ch], attachPlanOf env content, [])) := by
  unfold sendDiscordMessage attachPlanOf
  rw [if_neg (by simp [hch])]

end PageScraper

namespace PageScraper

theorem mem_attachPlan_iff (env : SendEnv) (content : Content) (fp : JStr) :
    fp ∈ attachPlanOf env content ↔
      (jsTruthy (content.embeddedLink.map EmbeddedLink.url) = false ∧
        ∃ m ∈ content.media, m.path = some fp ∧ fp ≠ [] ∧
          ∃ sz, env.stat fp = some sz ∧ sz < 25000000) := by
  unfold attachPlanOf
  by_cases hemb : jsTruthy (content.embeddedLink.map EmbeddedLink.url) = true
  · rw [if_pos hemb]
    simp [hemb]
  · replace hemb := Bool.not_eq_true _ |>.mp hemb
    rw [if_neg (by simp [hemb])]
    rw [List.mem_filterMap]
    constructor
    · rintro ⟨m, hm, hf⟩
      refine ⟨hemb, m, hm, ?_⟩
      cases hmp : m.path with
      | none => rw [hmp] at hf; exact absurd hf (by simp)
      | some p =>
        rw [hmp] at hf
        dsimp only at hf
        by_cases hp : p = []
        · rw [if_neg (by simp [hp])] at hf
          exact absurd hf (by simp)
        · rw [if_pos hp] at hf
          cases hst : env.stat p with
          | none => rw [hst] at hf; exact absurd hf (by simp)
          | some sz =>
            rw [hst] at hf
            dsimp only at hf
            by_cases hsz : sz < 25000000
            · rw [if_pos hsz] at hf
              injection hf with hf
              subst hf
              exact ⟨rfl, hp, sz, hst, hsz⟩
            · rw [if_neg hsz] at hf
              exact absurd hf (by simp)
    · rintro ⟨-, m, hm, hmp, hp, sz, hst, hsz⟩
      refine ⟨m, hm, ?_⟩
      rw [hmp]
      dsimp only
      rw [if_pos hp, hst]
      dsimp only
      rw [if_pos hsz]

/-- C6: a media file whose reported size is at least 25,000,000 bytes is
never attached; when the embedded-link url is falsy, every media item with
a truthy path whose size is below the cap is attached; deletion of backing
files is attempted only after a successful send, and a failed send deletes
nothing. -/
theorem attachment_cap_and_cleanup (env : SendEnv) (ch : JStr) (content : Content)
    (hch : env.channelFetchOk = true) :
    (∀ fp n, env.stat fp = some n → 25000000 ≤ n → fp ∉ sdmAttached env ch content) ∧
    (jsTruthy (content.embeddedLink.map EmbeddedLink.url) = false →
      ∀ m ∈ content.media, ∀ fp n, m.path = some fp → fp ≠ [] → env.stat fp = some n →
        n < 25000000 → fp ∈ sdmAttached env ch content) ∧
    (env.sendOk = false → sdmDeleted env ch content = [] ∧
      ∀ fp, Effect.unlinkFile fp ∉ sdmEffects env ch content) ∧
    (∀ fp, Effect.unlinkFile fp ∈ sdmEffects env ch content →
      precedes (Effect.sendMsg ch) (Effect.unlinkFile fp) (sdmEffects env ch content)) := by
  have heq := sdm_eq env ch content hch
  have hatt : sdmAttached env ch content = attachPlanOf env content := by
    unfold sdmAttached
    rw [heq]
    by_cases hs : env.sendOk = true
    · rw [if_pos hs]
    · rw [if_neg hs]
  refine ⟨?_, ?_, ?_, ?_⟩
  · intro fp n hst hn hmem
    rw [hatt] at hmem
    obtain ⟨-, m, -, -, -, sz, hst2, hsz⟩ := (mem_attachPlan_iff env content fp).mp hmem
    rw [hst] at hst2
    injection hst2 with hst2
    omega
  · intro hemb m hm fp n hmp hp hst hn
    rw [hatt]
    exact (mem_attachPlan_iff env content fp).mpr ⟨hemb, m, hm, hmp, hp, n, hst, hn⟩
  · intro hsend
    unfold sdmDeleted sdmEffects
    rw [heq, if_neg (by simp [hsend])]
    exact ⟨rfl, by simp⟩
  · intro fp hmem
    unfold sdmEffects at hmem ⊢
    rw [heq] at hmem ⊢
    by_cases hs : env.sendOk = true
    · rw [if_pos hs] at hmem ⊢
      have : Effect.sendMsg ch :: (attachPlanOf env content).map Effect.unlinkFile =
          [Effect.sendMsg ch] ++ (attachPlanOf env content).map Effect.unlinkFile := rfl
      rw [this] at hmem ⊢
      refine precedes_append _ _ _ _ (by simp) ?_
      rcases List.mem_append.mp hmem with hc | hc
      · exact absurd hc (by simp)
      · exact hc
    · rw [if_neg hs] at hmem
      exact absurd hmem (by simp)

end PageScraper

namespace PageScraper

def wSendEnv : SendEnv :=
  ⟨true, fun p => if p = jstr ("media/a.jpg") then some 30000000 else some 100, false⟩

def wContentMedia : Content :=
  ⟨jstr ("hi"),
    [⟨MediaKind.image, some (jstr ("media/a.jpg"))⟩, ⟨MediaKind.image, some (jstr ("media/b.jpg"))⟩],
    some (jstr ("/posts/1")), none, jstr ("t")⟩

/-- Witness for C6: the oversized file is not attached, the small one is,
and a failed send deletes nothing. -/
theorem attachment_cap_and_cleanup_witness :
    jstr ("media/a.jpg") ∉ sdmAttached wSendEnv (jstr ("chan")) wContentMedia ∧
    jstr ("media/b.jpg") ∈ sdmAttached wSendEnv (jstr ("chan")) wContentMedia ∧
    sdmDeleted wSendEnv (jstr ("chan")) wContentMedia = [] := by
  have h := attachment_cap_and_cleanup wSendEnv (jstr ("chan")) wContentMedia rfl
  refine ⟨?_, ?_, ?_⟩
  · exact h.1 (jstr ("media/a.jpg")) 30000000 (by decide) (by decide)
  · exact h.2.1 rfl ⟨MediaKind.image, some (jstr ("media/b.jpg"))⟩ (by decide)
      (jstr ("media/b.jpg")) 100 rfl (by decide) (by decide) (by decide)
  · exact (h.2.2.1 rfl).1

end PageScraper

namespace PageScraper

theorem jsParseInt_nil : jsParseInt [] = none := rfl

theorem handleImage_probe_filter (env : Env) (p : JStr) (idx : Nat) (img : ImgEl)
    (src cl : JStr) (n : Int) (hsrc : img.src = some src) (hsne : src ≠ [])
    (hhttp : startsHttp src = true) (hcl : img.contentLength = some cl)
    (hparse : jsParseInt cl = some n) :
    (handleImage env p idx img).2 =
      Effect.headProbe src ::
        (if 2048 < n then [Effect.downloadReq src MediaKind.image] else []) := by
  have hclne : cl ≠ [] := by
    intro he
    rw [he, jsParseInt_nil] at hparse
    exact absurd hparse (by simp)
  unfold handleImage
  rw [hsrc]
  dsimp only
  rw [if_pos ⟨hsne, hhttp⟩, hcl]
  dsimp only
  rw [hparse]
  by_cases hn : 2048 < n
  · rw [if_pos (by simp [hclne, hn]), if_pos hn]
    cases hdm : downloadMedia (env.imageOutcome idx)
        (mediaFilePath env.mediaDir p env.nowMs MediaKind.image idx) MediaKind.image with
    | error e => rfl
    | ok r => rfl
  · rw [if_neg (by simp [hn]), if_neg hn]

end PageScraper

namespace PageScraper

/-- C8: in a media-scan cycle (novel post, no link preview, video phase not
throwing) the effect trace is exactly the preview lookup, the video
effects, the per-image callback effects in element order, and the store
write; and each image callback with a truthy `http`-prefixed source and a
parsable `content-length` of `n` emits its `HEAD` probe and requests the
download if and only if `n` exceeds 2048. -/
theorem image_size_filter (env : Env) (p : JStr) (st : Storage) (mk : Markup) (post : PostEl)
    (hf : env.fetch = some mk) (hp : mk.firstPost = some post)
    (hseen : seenMatch (st.find p) (canonicalPostUrl post) = false)
    (hlp : post.linkPreview = none)
    (hv1 : env.videoOutcome.openOk = true) (hv2 : env.videoOutcome.closeOk = true) :
    pwpEffects env p st = Effect.previewLookup ::
        ((handleVideo env p post).2 ++ (handleImages env p post).2) ++ [Effect.storeWrite] ∧
    (handleImages env p post).2 =
      (post.images.enum.map (fun pr => (handleImage env p pr.1 pr.2).2)).flatten ∧
    (∀ idx img src cl n, img.src = some src → src ≠ [] → startsHttp src = true →
      img.contentLength = some cl → jsParseInt cl = some n →
      (handleImage env p idx img).2 =
        Effect.headProbe src ::
          (if 2048 < n then [Effect.downloadReq src MediaKind.image] else [])) := by
  have hemb : pwpEmbedded post = none := by
    unfold pwpEmbedded
    rw [hlp]
  obtain ⟨vm, veffs, hvid⟩ := handleVideo_ok env p post hv1 hv2
  have hmp : mediaPhase env p post (pwpEmbedded post) =
      (Except.ok (vm ++ (handleImages env p post).1),
        veffs ++ (handleImages env p post).2) := by
    unfold mediaPhase
    rw [hemb]
    rw [if_neg (by simp)]
    rw [hvid]
  have heq := pwp_eq_of_commit env p st mk post (vm ++ (handleImages env p post).1)
    (veffs ++ (handleImages env p post).2) hf hp hseen hmp
  refine ⟨?_, ?_, ?_⟩
  · simp only [pwpEffects, heq, hvid]
  · simp only [handleImages, List.map_map]
    rfl
  · intro idx img src cl n hsrc hsne hhttp hcl hparse
    exact handleImage_probe_filter env p idx img src cl n hsrc hsne hhttp hcl hparse

end PageScraper

namespace PageScraper

def wImgBig : ImgEl := ⟨some (jstr ("http://img/a.jpg")), some (jstr ("5000"))⟩

def wImgSmall : ImgEl := ⟨some (jstr ("http://img/b.jpg")), some (jstr ("100"))⟩

def wPostImgs : PostEl :=
  ⟨some (jstr ("/posts/200?x")), none, none, [wImgBig, wImgSmall], jstr ("hello")⟩

def wEnvImgs : Env :=
  ⟨some ⟨some wPostImgs⟩, wOutcome, fun _ => wOutcome, jstr ("111"), jstr ("t3"), jstr ("media")⟩

/-- Witness for C8: a 5000-byte image is probed and downloaded, a 100-byte
image is probed only. -/
theorem image_size_filter_witness :
    (handleImage wEnvImgs (jstr ("alpha")) 0 wImgBig).2 =
      [Effect.headProbe (jstr ("http://img/a.jpg")),
        Effect.downloadReq (jstr ("http://img/a.jpg")) MediaKind.image] ∧
    (handleImage wEnvImgs (jstr ("alpha")) 1 wImgSmall).2 =
      [Effect.headProbe (jstr ("http://img/b.jpg"))] := by
  have h := image_size_filter wEnvImgs (jstr ("alpha")) ⟨[]⟩ ⟨some wPostImgs⟩ wPostImgs
    rfl rfl (by decide) rfl rfl rfl
  constructor
  · have h2 := h.2.2 0 wImgBig (jstr ("http://img/a.jpg")) (jstr ("5000")) 5000
      rfl (by decide) (by decide) rfl (by decide)
    rw [h2]
    decide
  · have h2 := h.2.2 1 wImgSmall (jstr ("http://img/b.jpg")) (jstr ("100")) 100
      rfl (by decide) (by decide) rfl (by decide)
    rw [h2]
    decide

end PageScraper

namespace PageScraper

/-- C2: when a cycle extracts a novel post, the store commit happens
strictly before the delivery attempt in the effect trace; a delivery
failure is caught, the post stays recorded as seen, and any later cycle
that extracts the same permalink returns null and never attempts another
send — at-most-once delivery. -/
theorem commit_precedes_delivery (env1 env2 : CycleEnv) (pc : JStr × JStr) (st : Storage)
    (c : Content) (mk2 : Markup) (post2 : PostEl)
    (h1 : pwpResult env1.pwp pc.1 st = Except.ok (some c))
    (h2 : env1.send.channelFetchOk = true)
    (h3 : env1.send.sendOk = false)
    (h4 : env2.pwp.fetch = some mk2) (h5 : mk2.firstPost = some post2)
    (h6 : canonicalPostUrl post2 = c.url) :
    precedes Effect.storeWrite (Effect.sendMsg pc.2) (cycleTrace env1 pc st) ∧
    cycleSendResult env1 pc st = some (Except.error ()) ∧
    cycleStorage env1 pc st = st.set pc.1 ⟨c.url, c.timestamp⟩ ∧
    cycleStorage env2 pc (cycleStorage env1 pc st) = cycleStorage env1 pc st ∧
    cycleSendResult env2 pc (cycleStorage env1 pc st) = none ∧
    (∀ ch, Effect.sendMsg ch ∉ cycleTrace env2 pc (cycleStorage env1 pc st)) := by
  obtain ⟨mk1, post1, hf1, hp1, hseen1, hurl, hts, hembq, hmx, hstor, pre, heffs⟩ :=
    pwp_ok_some_inv env1.pwp pc.1 st c h1
  have hx : processWebPost env1.pwp pc.1 st =
      (Except.ok (some c), pwpStorage env1.pwp pc.1 st, pwpEffects env1.pwp pc.1 st) :=
    Prod.ext h1 (Prod.ext rfl rfl)
  have hsdm := sdm_eq env1.send pc.2 c h2
  rw [if_neg (by simp [h3])] at hsdm
  have hmon1 : monitorPage env1 pc st =
      (pwpStorage env1.pwp pc.1 st,
        pwpEffects env1.pwp pc.1 st ++ [Effect.sendMsg pc.2], some (Except.error ())) := by
    unfold monitorPage
    rw [hx]
    dsimp only
    rw [hsdm]
  have hcs : cycleStorage env1 pc st = pwpStorage env1.pwp pc.1 st := by
    unfold cycleStorage
    rw [hmon1]
  have hfind : (pwpStorage env1.pwp pc.1 st).find pc.1 =
      some ⟨canonicalPostUrl post1, env1.pwp.nowIso⟩ := by
    rw [hstor]
    exact Storage.find_set st pc.1 _
  have hseen2 : seenMatch ((pwpStorage env1.pwp pc.1 st).find pc.1)
      (canonicalPostUrl post2) = true := by
    rw [hfind, h6, hurl]
    simp [seenMatch]
  have heq2 := pwp_eq_of_seen env2.pwp pc.1 (pwpStorage env1.pwp pc.1 st) mk2 post2 h4 h5 hseen2
  have hmon2 : monitorPage env2 pc (pwpStorage env1.pwp pc.1 st) =
      (pwpStorage env1.pwp pc.1 st, [], none) := by
    unfold monitorPage
    rw [heq2]
  refine ⟨?_, ?_, ?_, ?_, ?_, ?_⟩
  · unfold cycleTrace
    rw [hmon1]
    refine precedes_append _ _ _ _ ?_ (by simp)
    rw [heffs]
    simp
  · unfold cycleSendResult
    rw [hmon1]
  · unfold cycleStorage
    rw [hmon1, hstor, hurl, hts]
  · unfold cycleStorage
    rw [hmon1, hmon2]
  · unfold cycleSendResult cycleStorage
    rw [hmon1]
    dsimp only
    rw [hmon2]
  · intro ch
    unfold cycleTrace cycleStorage
    rw [hmon1]
    dsimp only
    rw [hmon2]
    simp

end PageScraper

namespace PageScraper

def wPostC2 : PostEl := ⟨some (jstr ("/posts/5?a")), none, none, [], jstr ("m")⟩

def wCycleEnv1 : CycleEnv :=
  ⟨⟨some ⟨some wPostC2⟩, wOutcome, fun _ => wOutcome, jstr ("111"), jstr ("t4"), jstr ("media")⟩,
    ⟨true, fun _ => some 100, false⟩⟩

def wCycleEnv2 : CycleEnv := wCycleEnv1

def wContentC2 : Content := ⟨jstr ("m"), [], some (jstr ("/posts/5")), none, jstr ("t4")⟩

/-- Witness for C2: a concrete failed delivery still commits first and the
replayed page is never sent again. -/
theorem commit_precedes_delivery_witness :
    precedes Effect.storeWrite (Effect.sendMsg (jstr ("chan")))
      (cycleTrace wCycleEnv1 (jstr ("alpha"), jstr ("chan")) ⟨[]⟩) ∧
    cycleSendResult wCycleEnv1 (jstr ("alpha"), jstr ("chan")) ⟨[]⟩ = some (Except.error ()) ∧
    (∀ ch, Effect.sendMsg ch ∉
      cycleTrace wCycleEnv2 (jstr ("alpha"), jstr ("chan"))
        (cycleStorage wCycleEnv1 (jstr ("alpha"), jstr ("chan")) ⟨[]⟩)) := by
  have h := commit_precedes_delivery wCycleEnv1 wCycleEnv2 (jstr ("alpha"), jstr ("chan")) ⟨[]⟩
    wContentC2 ⟨some wPostC2⟩ wPostC2 (by decide) rfl rfl rfl rfl (by decide)
  exact ⟨h.1, h.2.1, h.2.2.2.2.2⟩

end PageScraper

namespace PageScraper

/-- C4 counterexample: `extractUrl` is not idempotent.  A doubly wrapped
redirect URL normalizes to a URL that still carries a `u` parameter, which
a second pass unwraps further. -/
theorem extractUrl_not_idempotent_counterexample :
    extractUrl (jstr ("http://a.com/?u=http%3A%2F%2Fb.com%2F%3Fu%3Dhttp%3A%2F%2Fc.com")) =
      jstr ("http://b.com/?u=http://c.com") ∧
    extractUrl (jstr ("http://b.com/?u=http://c.com")) = jstr ("http://c.com") ∧
    extractUrl (extractUrl (jstr ("http://a.com/?u=http%3A%2F%2Fb.com%2F%3Fu%3Dhttp%3A%2F%2Fc.com"))) ≠
      extractUrl (jstr ("http://a.com/?u=http%3A%2F%2Fb.com%2F%3Fu%3Dhttp%3A%2F%2Fc.com")) := by
  refine ⟨by decide, by decide, by decide⟩

end PageScraper

namespace PageScraper

theorem decLoopF_post (f : Nat) (cur y : JStr) (h : decLoopF f cur = some y) :
    ∃ d, strictDecode y = some d ∧ (d = y ∨ startsHttp d = false) := by
  induction f generalizing cur with
  | zero => exact absurd h (by simp [decLoopF])
  | succ g ih =>
    unfold decLoopF at h
    cases hdec : strictDecode cur with
    | none => rw [hdec] at h; exact absurd h (by simp)
    | some d =>
      rw [hdec] at h
      dsimp only at h
      by_cases hc : startsHttp d = true ∧ d ≠ cur
      · rw [if_pos hc] at h
        exact ih d h
      · rw [if_neg hc] at h
        injection h with h
        subst h
        rcases Decidable.not_and_iff_or_not.mp hc with h1 | h1
        · exact ⟨d, hdec, Or.inr (Bool.not_eq_true _ |>.mp h1)⟩
        · exact ⟨d, hdec, Or.inl (Decidable.not_not.mp h1)⟩

theorem decLoop_fixed (y d : JStr) (hdec : strictDecode y = some d)
    (hexit : d = y ∨ startsHttp d = false) : decLoop y = some y := by
  unfold decLoop decLoopF
  rw [hdec]
  dsimp only
  rcases hexit with h | h
  · rw [if_neg (by simp [h])]
  · rw [if_neg (by simp [h])]

theorem extractUrlCore_some_decLoop (x y : JStr) (h : extractUrlCore x = some y) :
    ∃ cur2, decLoop cur2 = some y := by
  unfold extractUrlCore at h
  repeat' first
    | split at h
    | dsimp only at h
  all_goals first
    | exact absurd h (by simp)
    | exact ⟨_, h⟩

/-- Absence of redirect-wrapper parameters in the parse of `s`. -/
def noWrapperParams (s : JStr) : Prop :=
  match parseQueryString s with
  | none => True
  | some q => getParam uKey q = none ∧ getParam urlKey q = none

instance (s : JStr) : Decidable (noWrapperParams s) := by
  unfold noWrapperParams
  cases parseQueryString s with
  | none => exact inferInstanceAs (Decidable True)
  | some q => exact inferInstanceAs (Decidable (_ ∧ _))

end PageScraper

namespace PageScraper

theorem extractUrl_self_of_core_none (x : JStr) (h : extractUrlCore x = none) :
    extractUrl x = x := by
  unfold extractUrl
  rw [h]
  rfl

theorem extractUrl_of_core_some (x y : JStr) (h : extractUrlCore x = some y) :
    extractUrl x = y := by
  unfold extractUrl
  rw [h]
  rfl

theorem extractUrl_idem_of_noWrapper (x : JStr) (h : noWrapperParams (extractUrl x)) :
    extractUrl (extractUrl x) = extractUrl x := by
  cases hcore : extractUrlCore x with
  | none =>
    have hx := extractUrl_self_of_core_none x hcore
    rw [hx]
    exact hx
  | some y =>
    have hx := extractUrl_of_core_some x y hcore
    rw [hx] at h ⊢
    obtain ⟨cur2, hdl⟩ := extractUrlCore_some_decLoop x y hcore
    obtain ⟨d, hdec, hexit⟩ := decLoopF_post (cur2.length + 1) cur2 y hdl
    cases hq : parseQueryString y with
    | none =>
      have hcn : extractUrlCore y = none := by
        unfold extractUrlCore
        rw [hq]
      exact extractUrl_self_of_core_none y hcn
    | some q =>
      unfold noWrapperParams at h
      rw [hq] at h
      have hcy : extractUrlCore y = some y := by
        unfold extractUrlCore
        rw [hq]
        dsimp only
        rw [h.1, h.2]
        dsimp only
        exact decLoop_fixed y d hdec hexit
      exact extractUrl_of_core_some y y hcy

end PageScraper

namespace PageScraper

theorem splitFirst_not_mem (c : Char) (l : JStr) (h : c ∉ l) : splitFirst c l = none := by
  induction l with
  | nil => rfl
  | cons a t ih =>
    unfold splitFirst
    rw [if_neg (by intro he; exact h (he ▸ List.mem_cons_self a t))]
    rw [ih (fun hm => h (List.mem_cons_of_mem a hm))]
    rfl

theorem splitFirst_first (c : Char) (l1 l2 : JStr) (h : c ∉ l1) :
    splitFirst c (l1 ++ c :: l2) = some (l1, l2) := by
  induction l1 with
  | nil => simp [splitFirst]
  | cons a t ih =>
    unfold splitFirst
    rw [List.cons_append]
    dsimp only
    rw [if_neg (by intro he; exact h (he ▸ List.mem_cons_self a t))]
    rw [ih (fun hm => h (List.mem_cons_of_mem a hm))]
    rfl

theorem splitOnChar_not_mem (c : Char) (l : JStr) (h : c ∉ l) : splitOnChar c l = [l] := by
  induction l with
  | nil => rfl
  | cons a t ih =>
    unfold splitOnChar
    rw [ih (fun hm => h (List.mem_cons_of_mem a hm))]
    dsimp only
    rw [if_neg (by intro he; exact h (he ▸ List.mem_cons_self a t))]

theorem hexVal_hexChar : ∀ k : Nat, k < 16 → hexVal (hexChar k) = some k := by decide

theorem strictDecodeF_pct_free (T : JStr) : ∀ f : Nat, T.length < f → '%' ∉ T →
    strictDecodeF f T = some T := by
  induction T with
  | nil =>
    intro f hf _
    cases f with
    | zero => exact absurd hf (by simp)
    | succ g => rfl
  | cons a t ih =>
    intro f hf hmem
    cases f with
    | zero => exact absurd hf (by simp)
    | succ g =>
      unfold strictDecodeF
      rw [if_neg (by intro he; exact hmem (he ▸ List.mem_cons_self a t))]
      rw [ih g (by simpa using Nat.lt_of_succ_lt_succ hf) (fun hm => hmem (List.mem_cons_of_mem a hm))]
      rfl

theorem strictDecode_pct_free (T : JStr) (h : '%' ∉ T) : strictDecode T = some T :=
  strictDecodeF_pct_free T (T.length + 1) (Nat.lt_succ_self _) h

end PageScraper

namespace PageScraper

theorem encChar_length_pos (c : Char) : 1 ≤ (encChar c).length := by
  unfold encChar
  by_cases h : isUnreservedEnc c = true
  · rw [if_pos h]
    simp
  · rw [if_neg h]
    unfold utf8Bytes
    split
    · simp [escByte]
    · split
      · simp [escByte]
      · split
        · simp [escByte]
        · simp [escByte]

theorem length_le_enc (T : JStr) : T.length ≤ (encodeURIComponent T).length := by
  induction T with
  | nil => simp [encodeURIComponent]
  | cons a t ih =>
    have h := encChar_length_pos a
    simp only [encodeURIComponent, List.map_cons, List.flatten_cons, List.length_append,
      List.length_cons] at ih ⊢
    omega

theorem enc_cons (a : Char) (t : JStr) :
    encodeURIComponent (a :: t) = encChar a ++ encodeURIComponent t := by
  simp [encodeURIComponent]

theorem formDecodeF_enc (T : JStr) : ∀ f : Nat, T.length < f →
    (∀ c ∈ T, c.toNat < 128) → formDecodeF f (encodeURIComponent T) = T := by
  induction T with
  | nil =>
    intro f hf _
    cases f with
    | zero => exact absurd hf (by simp)
    | succ g => rfl
  | cons a t ih =>
    intro f hf hascii
    cases f with
    | zero => exact absurd hf (by simp)
    | succ g =>
      have ha : a.toNat < 128 := hascii a (List.mem_cons_self a t)
      have ht : ∀ c ∈ t, c.toNat < 128 := fun c hc => hascii c (List.mem_cons_of_mem a hc)
      have hg : t.length < g := by simpa using Nat.lt_of_succ_lt_succ hf
      rw [enc_cons]
      by_cases hu : isUnreservedEnc a = true
      · have henc2 : encChar a = [a] := by
          unfold encChar
          rw [if_pos hu]
        rw [henc2]
        have hnp : a ≠ '+' := by
          intro he
          rw [he] at hu
          exact absurd hu (by decide)
        have hnc : a ≠ '%' := by
          intro he
          rw [he] at hu
          exact absurd hu (by decide)
        show formDecodeF (g + 1) (a :: encodeURIComponent t) = a :: t
        unfold formDecodeF
        rw [if_neg hnp, if_neg hnc, ih g hg ht]
      · have henc2 : encChar a = ['%', hexChar (a.toNat / 16), hexChar (a.toNat % 16)] := by
          unfold encChar
          rw [if_neg hu]
          unfold utf8Bytes
          rw [if_pos ha]
          simp [escByte]
        rw [henc2]
        show formDecodeF (g + 1)
          ('%' :: hexChar (a.toNat / 16) :: hexChar (a.toNat % 16) :: encodeURIComponent t) = a :: t
        unfold formDecodeF
        rw [if_neg (by decide), if_pos rfl]
        have hdiv : a.toNat / 16 < 16 := Nat.div_lt_of_lt_mul (by omega)
        have hmod : a.toNat % 16 < 16 := Nat.mod_lt _ (by omega)
        have hrb : readByte ('%' :: hexChar (a.toNat / 16) :: hexChar (a.toNat % 16) ::
            encodeURIComponent t) = some (a.toNat, encodeURIComponent t) := by
          unfold readByte
          dsimp only
          rw [if_pos rfl, hexVal_hexChar _ hdiv, hexVal_hexChar _ hmod]
          dsimp only
          have hdm := Nat.div_add_mod a.toNat 16
          congr 1
          rw [Prod.mk.injEq]
          exact ⟨by omega, rfl⟩
        rw [hrb]
        dsimp only
        have hcp : decodeCP a.toNat (encodeURIComponent t) =
            some (a.toNat, encodeURIComponent t) := by
          unfold decodeCP
          rw [if_pos ha]
        rw [hcp]
        dsimp only
        rw [Char.ofNat_toNat, ih g hg ht]

theorem formDecode_enc (T : JStr) (h : ∀ c ∈ T, c.toNat < 128) :
    formDecode (encodeURIComponent T) = T :=
  formDecodeF_enc T ((encodeURIComponent T).length + 1)
    (by have := length_le_enc T; omega) h

end PageScraper

namespace PageScraper

theorem enc_mem_class (T : JStr) (hT : ∀ c ∈ T, c.toNat < 128) (x : Char)
    (h : x ∈ encodeURIComponent T) :
    isUnreservedEnc x = true ∨ x = '%' ∨ ∃ k, k < 16 ∧ x = hexChar k := by
  unfold encodeURIComponent at h
  rw [List.mem_flatten] at h
  obtain ⟨l, hl, hc⟩ := h
  rw [List.mem_map] at hl
  obtain ⟨t, ht, rfl⟩ := hl
  have hta : t.toNat < 128 := hT t ht
  unfold encChar at hc
  by_cases hu : isUnreservedEnc t = true
  · rw [if_pos hu] at hc
    rw [List.mem_singleton] at hc
    exact Or.inl (hc ▸ hu)
  · rw [if_neg hu] at hc
    unfold utf8Bytes at hc
    rw [if_pos hta] at hc
    simp only [List.map_cons, List.map_nil, List.flatten_cons, List.flatten_nil,
      List.append_nil] at hc
    unfold escByte at hc
    simp only [List.mem_cons, List.not_mem_nil, or_false] at hc
    have hdiv : t.toNat / 16 < 16 := Nat.div_lt_of_lt_mul (by omega)
    have hmod : t.toNat % 16 < 16 := Nat.mod_lt _ (by omega)
    rcases hc with hc | hc | hc
    · exact Or.inr (Or.inl hc)
    · exact Or.inr (Or.inr ⟨t.toNat / 16, hdiv, hc⟩)
    · exact Or.inr (Or.inr ⟨t.toNat % 16, hmod, hc⟩)

theorem not_mem_enc (T : JStr) (hT : ∀ c ∈ T, c.toNat < 128) (x : Char)
    (h1 : isUnreservedEnc x = false) (h2 : x ≠ '%') (h3 : ∀ k, k < 16 → x ≠ hexChar k) :
    x ∉ encodeURIComponent T := by
  intro hm
  rcases enc_mem_class T hT x hm with hc | hc | ⟨k, hk, hc⟩
  · rw [hc] at h1
    exact absurd h1 (by simp)
  · exact h2 hc
  · exact h3 k hk hc

theorem hash_not_mem_enc (T : JStr) (hT : ∀ c ∈ T, c.toNat < 128) :
    '#' ∉ encodeURIComponent T :=
  not_mem_enc T hT '#' (by decide) (by decide) (by decide)

theorem amp_not_mem_enc (T : JStr) (hT : ∀ c ∈ T, c.toNat < 128) :
    '&' ∉ encodeURIComponent T :=
  not_mem_enc T hT '&' (by decide) (by decide) (by decide)

end PageScraper

namespace PageScraper

/-- The wrapper URL used in the amended wrapped-redirect statement. -/
def wrapPref : JStr := jstr ("http://a.com/?u=")

theorem parseQueryString_wrapped (T : JStr) (hT : ∀ c ∈ T, c.toNat < 128) :
    parseQueryString (wrapPref ++ encodeURIComponent T) =
      some ('u' :: '=' :: encodeURIComponent T) := by
  unfold parseQueryString
  have h1 : splitFirst ':' (wrapPref ++ encodeURIComponent T) =
      some (jstr ("http"), jstr ("//a.com/?u=") ++ encodeURIComponent T) := by
    show splitFirst ':' (jstr ("http") ++ ':' :: (jstr ("//a.com/?u=") ++ encodeURIComponent T)) = _
    exact splitFirst_first ':' (jstr ("http")) _ (by decide)
  rw [h1]
  dsimp only
  rw [if_pos (by decide)]
  have h2 : splitFirst '?' (wrapPref ++ encodeURIComponent T) =
      some (jstr ("http://a.com/"), 'u' :: '=' :: encodeURIComponent T) := by
    show splitFirst '?'
      (jstr ("http://a.com/") ++ '?' :: ('u' :: '=' :: encodeURIComponent T)) = _
    exact splitFirst_first '?' (jstr ("http://a.com/")) _ (by decide)
  rw [h2]
  dsimp only
  have h3 : splitFirst '#' ('u' :: '=' :: encodeURIComponent T) = none := by
    apply splitFirst_not_mem
    intro hm
    rcases List.mem_cons.mp hm with hc | hm
    · exact absurd hc (by decide)
    rcases List.mem_cons.mp hm with hc | hm
    · exact absurd hc (by decide)
    exact hash_not_mem_enc T hT hm
  rw [h3]

theorem getParam_u_wrapped (T : JStr) (hT : ∀ c ∈ T, c.toNat < 128) :
    getParam uKey ('u' :: '=' :: encodeURIComponent T) = some T := by
  unfold getParam queryPairs
  rw [if_neg (by simp)]
  have hsp : splitOnChar '&' ('u' :: '=' :: encodeURIComponent T) =
      ['u' :: '=' :: encodeURIComponent T] := by
    apply splitOnChar_not_mem
    intro hm
    rcases List.mem_cons.mp hm with hc | hm
    · exact absurd hc (by decide)
    rcases List.mem_cons.mp hm with hc | hm
    · exact absurd hc (by decide)
    exact amp_not_mem_enc T hT hm
  rw [hsp]
  rw [List.filter_cons_of_pos (by simp), List.filter_nil]
  rw [List.findSome?_cons]
  have hkv : pairKeyVal ('u' :: '=' :: encodeURIComponent T) =
      (['u'], encodeURIComponent T) := by
    unfold pairKeyVal
    have : splitFirst '=' ('u' :: '=' :: encodeURIComponent T) =
        some (['u'], encodeURIComponent T) := by
      show splitFirst '=' (['u'] ++ '=' :: encodeURIComponent T) = _
      exact splitFirst_first '=' (['u']) _ (by decide)
    rw [this]
  rw [hkv]
  dsimp only
  rw [if_pos (by decide), formDecode_enc T hT]

theorem getParam_url_wrapped (T : JStr) (hT : ∀ c ∈ T, c.toNat < 128) :
    getParam urlKey ('u' :: '=' :: encodeURIComponent T) = none := by
  unfold getParam queryPairs
  rw [if_neg (by simp)]
  have hsp : splitOnChar '&' ('u' :: '=' :: encodeURIComponent T) =
      ['u' :: '=' :: encodeURIComponent T] := by
    apply splitOnChar_not_mem
    intro hm
    rcases List.mem_cons.mp hm with hc | hm
    · exact absurd hc (by decide)
    rcases List.mem_cons.mp hm with hc | hm
    · exact absurd hc (by decide)
    exact amp_not_mem_enc T hT hm
  rw [hsp]
  rw [List.filter_cons_of_pos (by simp), List.filter_nil]
  rw [List.findSome?_cons]
  have hkv : pairKeyVal ('u' :: '=' :: encodeURIComponent T) =
      (['u'], encodeURIComponent T) := by
    unfold pairKeyVal
    have : splitFirst '=' ('u' :: '=' :: encodeURIComponent T) =
        some (['u'], encodeURIComponent T) := by
      show splitFirst '=' (['u'] ++ '=' :: encodeURIComponent T) = _
      exact splitFirst_first '=' (['u']) _ (by decide)
    rw [this]
  rw [hkv]
  dsimp only
  rw [if_neg (by decide)]
  rfl

theorem extractUrl_wrapped (T : JStr) (hT : ∀ c ∈ T, c.toNat < 128) (hpct : '%' ∉ T) :
    extractUrl (wrapPref ++ encodeURIComponent T) = T := by
  have hdecT := strictDecode_pct_free T hpct
  have hcore : extractUrlCore (wrapPref ++ encodeURIComponent T) = some T := by
    unfold extractUrlCore
    rw [parseQueryString_wrapped T hT]
    dsimp only
    rw [getParam_u_wrapped T hT]
    dsimp only
    rw [hdecT]
    dsimp only
    rw [getParam_url_wrapped T hT]
    dsimp only
    exact decLoop_fixed T T hdecT (Or.inl rfl)
  exact extractUrl_of_core_some _ T hcore

end PageScraper

namespace PageScraper

/-- C4 (amended): the URL normalizer is idempotent on every input whose
normalized form does not itself parse as a URL carrying a `u` or `url`
query parameter (the counterexample shows a doubly wrapped URL whose
normal form still carries a `u` parameter is normalized further on a
second pass); and a wrapped redirect URL `http://a.com/?u=<encoded
target>` with a percent-encoded ASCII target that contains no
percent-escapes of its own normalizes to exactly the decoded target. -/
theorem extractUrl_amended :
    (∀ x : JStr, noWrapperParams (extractUrl x) →
      extractUrl (extractUrl x) = extractUrl x) ∧
    (∀ T : JStr, (∀ c ∈ T, c.toNat < 128) → '%' ∉ T →
      extractUrl (wrapPref ++ encodeURIComponent T) = T) :=
  ⟨extractUrl_idem_of_noWrapper, extractUrl_wrapped⟩

/-- Witness for the amended C4 theorem at concrete inputs. -/
theorem extractUrl_amended_witness :
    extractUrl (extractUrl (jstr ("hello"))) = extractUrl (jstr ("hello")) ∧
    extractUrl (wrapPref ++ encodeURIComponent (jstr ("http://t.example/path x"))) =
      jstr ("http://t.example/path x") := by
  constructor
  · exact extractUrl_amended.1 (jstr ("hello")) (by decide)
  · exact extractUrl_amended.2 (jstr ("http://t.example/path x")) (by decide) (by decide)

end PageScraper
